import Mathlib

/-!
Verification development for the karaoke subtitle backend
(`backend/server.py`).  The Python functions `clean_text`,
`align_text_with_whisper`, `generate_ttml`, `generate_lrc`, the fallback
branch of `process_audio_text`, and the correction loop of
`correct_timing` are embedded as executable Lean definitions over `ℚ`
(all float values arising in the program and in the claims are exact
decimals, for which binary floating point arithmetic in the source is
exact or rounds exactly as the rational model does).
-/

namespace Karaoke

/-- Decimal digit character, as produced by Python number formatting. -/
def digitChar (n : Nat) : Char :=
  if n = 0 then '0' else if n = 1 then '1' else if n = 2 then '2'
  else if n = 3 then '3' else if n = 4 then '4' else if n = 5 then '5'
  else if n = 6 then '6' else if n = 7 then '7' else if n = 8 then '8'
  else '9'

/-- Inverse of `digitChar` on decimal digits. -/
def digitVal (c : Char) : Nat :=
  if c = '0' then 0 else if c = '1' then 1 else if c = '2' then 2
  else if c = '3' then 3 else if c = '4' then 4 else if c = '5' then 5
  else if c = '6' then 6 else if c = '7' then 7 else if c = '8' then 8
  else 9

/-- Decimal digit string of a natural number (most significant first),
with explicit fuel so the definition is structurally recursive.  For
`fuel > n` this is exactly the decimal rendering Python's `str`/format
specifiers produce. -/
def natDigits : Nat → Nat → List Char
  | 0, _ => []
  | fuel + 1, n =>
    if n < 10 then [digitChar n]
    else natDigits fuel (n / 10) ++ [digitChar (n % 10)]

/-- Decimal rendering of a natural number (Python `str(n)`). -/
def natRepr (n : Nat) : String := String.mk (natDigits (n + 1) n)

/-- Decimal rendering of an integer (Python `str(n)` on `int`). -/
def intRepr (n : Int) : String :=
  (if n < 0 then "-" else "") ++ natRepr n.natAbs

/-- Value of a digit list, used to prove `natDigits` injective. -/
def digitsVal (l : List Char) : Nat :=
  l.foldl (fun a c => 10 * a + digitVal c) 0

/-- Round-half-even of a rational to an integer: the rounding used by
Python `round` and by `printf`-style fixed-point formatting (on the
exact decimal values this development evaluates it on). -/
def rhe (x : ℚ) : ℤ :=
  if x - (Int.floor x : ℚ) < 1/2 then Int.floor x
  else if 1/2 < x - (Int.floor x : ℚ) then Int.floor x + 1
  else if Int.floor x % 2 = 0 then Int.floor x else Int.floor x + 1

/-- Python `round(x, 1)` on the exact decimal values of this program. -/
def round1 (x : ℚ) : ℚ := (rhe (10 * x) : ℚ) / 10

/-- Characters of the fixed-point rendering `f"{x:.1f}"`: optional sign,
integer-part digits, a point, one fractional digit. -/
def fmt1Chars (x : ℚ) : List Char :=
  let n := rhe (10 * x)
  (if n < 0 ∨ (n = 0 ∧ x < 0) then ['-'] else []) ++
    natDigits (n.natAbs / 10 + 1) (n.natAbs / 10) ++ ['.', digitChar (n.natAbs % 10)]

/-- Python `f"{x:.1f}"`. -/
def fmt1 (x : ℚ) : String := String.mk (fmt1Chars x)

/-- Characters of `f"{x:.2f}"`: optional sign, integer-part digits, a
point, two fractional digits. -/
def fmt2Chars (x : ℚ) : List Char :=
  let n := rhe (100 * x)
  (if n < 0 ∨ (n = 0 ∧ x < 0) then ['-'] else []) ++
    natDigits (n.natAbs / 100 + 1) (n.natAbs / 100) ++
    ['.', digitChar (n.natAbs % 100 / 10), digitChar (n.natAbs % 10)]

/-- Python `f"{x:.2f}"`. -/
def fmt2 (x : ℚ) : String := String.mk (fmt2Chars x)

/-- Pad a string to width `w` with leading zeros (no sign handling). -/
def padZeros (w : Nat) (s : String) : String :=
  if w ≤ s.length then s
  else String.mk (List.replicate (w - s.length) '0') ++ s

/-- Zero fill as Python's `0`-flagged width specifier: zeros go after a
leading minus sign. -/
def zfill (w : Nat) (s : String) : String :=
  if s.data.head? = some '-' then "-" ++ padZeros (w - 1) (String.mk (s.data.drop 1))
  else padZeros w s

/-- Python `str.lower()` (ASCII case folding; the source applies it to
ASCII and Cyrillic text, and the claims only exercise ASCII). -/
def pyLower (s : String) : String := String.mk (s.data.map Char.toLower)

/-- Accumulating helper for `pySplit`: `acc` holds the characters of the
current (reversed) in-progress token. -/
def splitWSAux : List Char → List Char → List String
  | [], acc => if acc = [] then [] else [String.mk acc.reverse]
  | c :: rest, acc =>
    if c.isWhitespace then
      if acc = [] then splitWSAux rest []
      else String.mk acc.reverse :: splitWSAux rest []
    else splitWSAux rest (c :: acc)

/-- Python `str.split()` with no argument: split on whitespace runs,
yielding the maximal non-whitespace tokens and no empty pieces. -/
def pySplit (s : String) : List String := splitWSAux s.data []

/-- Characters of Python `str.strip()`: drop leading and trailing
whitespace. -/
def stripChars (l : List Char) : List Char :=
  ((l.dropWhile Char.isWhitespace).reverse.dropWhile Char.isWhitespace).reverse

/-- Python `str.strip()`. -/
def pyStrip (s : String) : String := String.mk (stripChars s.data)

/-- Python substring membership `a in b` on strings. -/
def pyIn (a b : String) : Bool :=
  (List.range (b.data.length + 1)).any
    (fun i => decide (a.data = (b.data.drop i).take a.data.length))

/-- Count occurrences of a character in a string. -/
def countChar (c : Char) (s : String) : Nat := s.data.count c

/-- Concatenation of a list of strings, as a Python `+=` loop. -/
def strConcat : List String → String
  | [] => ""
  | s :: rest => s ++ strConcat rest

/-- A timed word, as the dicts built by `align_text_with_whisper` and the
fallback branch of `process_audio_text` (keys `word`, `start`, `end`,
`confidence`). -/
structure Word where
  word : String
  start : ℚ
  «end» : ℚ
  confidence : ℚ
deriving DecidableEq

/-- A subtitle segment, as the dicts stored in `aligned_segments` (keys
`start`, `end`, `text`, `words`). -/
structure Segment where
  start : ℚ
  «end» : ℚ
  text : String
  words : List Word
deriving DecidableEq

/-- A recognizer word dict as consumed by `align_text_with_whisper`;
`none` models an absent key, read through `dict.get` with the source's
defaults. -/
structure WhisperWord where
  word : Option String
  start : Option ℚ
  «end» : Option ℚ
  confidence : Option ℚ
deriving DecidableEq

/-- A recognizer segment dict (`segment.get('words', [])` etc.). -/
structure WhisperSegment where
  start : Option ℚ
  «end» : Option ℚ
  text : Option String
  words : Option (List WhisperWord)
deriving DecidableEq

/-- The recognizer result dict passed to `align_text_with_whisper`. -/
structure WhisperResult where
  text : Option String
  segments : Option (List WhisperSegment)
deriving DecidableEq

/-- Approximation of the regex class `\w` used by `clean_text` (the
source's Unicode `\w` further admits non-ASCII letters; the claims only
exercise ASCII). -/
def isWordChar (c : Char) : Bool := c.isAlphanum || c = '_'

/-- Collapse each whitespace run to a single space, as
`re.sub(r'\s+', ' ', ·)`; the flag records whether the previous
character was whitespace. -/
def collapseWSAux : List Char → Bool → List Char
  | [], _ => []
  | c :: rest, prevWS =>
    if c.isWhitespace then
      if prevWS then collapseWSAux rest true
      else ' ' :: collapseWSAux rest true
    else c :: collapseWSAux rest false

/-- Embedding of `clean_text` (server.py:89): strip, collapse whitespace
runs to single spaces, then drop every character outside the allow-list
of word characters, whitespace, hyphen, period, comma, `!`, `?`. -/
def clean_text (text : String) : String :=
  let stripped := stripChars text.data
  let collapsed := collapseWSAux stripped false
  String.mk (collapsed.filter
    (fun c => isWordChar c || c.isWhitespace || c = '-' || c = '.' ||
      c = ',' || c = '!' || c = '?'))

/-- The substring test of the aligner's inner loop (server.py:129):
`orig_word.lower() in word.lower() or word.lower() in orig_word.lower()`. -/
def matchPred (word : String) (orig_word : String) : Bool :=
  pyIn (pyLower orig_word) (pyLower word) || pyIn (pyLower word) (pyLower orig_word)

/-- The aligner's search for `best_match` (server.py:127): start from the
recognizer word itself and break at the first reference word for which
`matchPred` holds. -/
def bestMatchLoop (word : String) : List String → String
  | [] => word
  | orig_word :: rest =>
    if matchPred word orig_word then orig_word else bestMatchLoop word rest

/-- Body of the aligner's per-word loop (server.py:121-138): strip the
recognizer word text, substitute the matched reference word, round start
and end to 1 decimal, take confidence verbatim with default `0.8`. -/
def alignWord (original_words : List String) (word_info : WhisperWord) : Word :=
  let word := pyStrip (word_info.word.getD "")
  { word := bestMatchLoop word original_words
    start := round1 (word_info.start.getD 0)
    «end» := round1 (word_info.«end».getD 0)
    confidence := word_info.confidence.getD (4/5) }

/-- Embedding of `align_text_with_whisper` (server.py:97-147).  The
source also computes `whisper_clean` and a `SequenceMatcher`, but both
are dead (never read); they are omitted here.  Recognizer segments with
an empty word list are dropped (`if not segment_words: continue`). -/
def align_text_with_whisper (whisper_result : WhisperResult) (original_text : String) :
    List Segment :=
  let original_clean := clean_text original_text
  let original_words := pySplit original_clean
  let whisper_segments := whisper_result.segments.getD []
  whisper_segments.filterMap (fun segment =>
    let segment_words := segment.words.getD []
    if segment_words = [] then none
    else
      let segment_text := pyStrip (segment.text.getD "")
      some { start := round1 (segment.start.getD 0)
             «end» := round1 (segment.«end».getD 0)
             text := segment_text
             words := segment_words.map (alignWord original_words) })

/-- The fixed per-word time of the fallback branch of
`process_audio_text` (server.py:288): 0.5 seconds, independent of the
audio duration. -/
def time_per_word : ℚ := 1/2

/-- One segment of the fallback branch (server.py:292-302): the word's
own rounded bounds, the word as segment text, and a singleton word list
with confidence `0.8`. -/
def mkFallbackSeg (current_time : ℚ) (word : String) : Segment :=
  { start := round1 current_time
    «end» := round1 (current_time + time_per_word)
    text := word
    words := [{ word := word
                start := round1 current_time
                «end» := round1 (current_time + time_per_word)
                confidence := 4/5 }] }

/-- The fallback loop of `process_audio_text` (server.py:290-303),
threading `current_time` which advances by `time_per_word` per word
(float arithmetic on multiples of 0.5 is exact, so `ℚ` is faithful). -/
def fallbackLoop : List String → ℚ → List Segment
  | [], _ => []
  | word :: rest, current_time =>
    mkFallbackSeg current_time word :: fallbackLoop rest (current_time + time_per_word)

/-- The fallback segment construction of `process_audio_text`
(server.py:286-303): `original_text.split()` walked with
`current_time = 0`. -/
def fallbackSegments (original_text : String) : List Segment :=
  fallbackLoop (pySplit original_text) 0

/-- Outcome of one processing run as recorded in the project document:
either `status = "completed"` with the produced `aligned_segments`, or
`status = "error"` with the exception text. -/
inductive ProcessResult where
  | completed (aligned_segments : List Segment)
  | error (msg : String)
deriving DecidableEq

/-- The fallback path of `process_audio_text` (server.py:257-323) with no
whisper model loaded: the argument is the outcome of
`extract_text_from_file` (an `Except` models the raised exception for
undecodable or unsupported text files); any exception is caught by the
handler, which records an error status, and otherwise the fallback
segments are stored with status completed.  Note the audio duration is
never consulted on this path. -/
def process_fallback (extracted : Except String String) : ProcessResult :=
  match extracted with
  | .error e => .error e
  | .ok original_text => .completed (fallbackSegments original_text)

/-- A timing correction entry (model `TimingCorrection`, server.py:51).
Indices are `ℤ` since Pydantic's `int` is unbounded and signed. -/
structure TimingCorrection where
  segment_index : ℤ
  word_index : ℤ
  new_start_time : ℚ
  new_end_time : ℚ
deriving DecidableEq

/-- Python list indexing `l[i]`: non-negative indices address from the
front, indices in `[-len, -1]` address from the back, anything else
raises `IndexError` (here `none`). -/
def pyIndex (len : Nat) (i : ℤ) : Option Nat :=
  if 0 ≤ i then (if i < (len : ℤ) then some i.toNat else none)
  else (if 0 ≤ (len : ℤ) + i then some ((len : ℤ) + i).toNat else none)

/-- One iteration of the correction loop of `correct_timing`
(server.py:348-354).  Only the upper bounds are checked
(`correction.segment_index < len(segments)` and
`correction.word_index < len(...)`); list access then follows Python
indexing, so a negative index reaches the access and may raise
(`none`). -/
def applyCorrection (segments : List Segment) (correction : TimingCorrection) :
    Option (List Segment) :=
  if correction.segment_index < (segments.length : ℤ) then
    match pyIndex segments.length correction.segment_index with
    | none => none
    | some si =>
      match segments.get? si with
      | none => none
      | some segment =>
        if correction.word_index < (segment.words.length : ℤ) then
          match pyIndex segment.words.length correction.word_index with
          | none => none
          | some wi =>
            match segment.words.get? wi with
            | none => none
            | some word =>
              some (segments.set si
                { segment with
                    words := segment.words.set wi
                      { word with
                          start := correction.new_start_time
                          «end» := correction.new_end_time } })
        else some segments
  else some segments

/-- The correction loop of `correct_timing` (server.py:348-354) over a
whole batch.  `none` models an uncaught `IndexError`: the request fails
with status 500 before the database update, so no changes persist. -/
def correct_timing (segments : List Segment) (corrections : List TimingCorrection) :
    Option (List Segment) :=
  corrections.foldlM applyCorrection segments

/-- One TTML paragraph as emitted by `generate_ttml` (server.py:168-173):
its `begin`, `end` and `style` attributes and its text content. -/
structure TTMLParagraph where
  begin : String
  «end» : String
  style : String
  text : String
deriving DecidableEq

/-- Embedding of the paragraph list of `generate_ttml`
(server.py:149-175): one `<p>` per segment in order, `begin`/`end`
formatted as `f"{value:.1f}s"`, content the segment's `text`.  The fixed
root/head/styling boilerplate carries no per-segment data and is not
modelled. -/
def generate_ttml (segments : List Segment) (project_name : String) : List TTMLParagraph :=
  segments.map (fun segment =>
    { begin := fmt1 segment.start ++ "s"
      «end» := fmt1 segment.«end» ++ "s"
      style := "defaultStyle"
      text := segment.text })

/-- The `[MM:SS.ss]` timestamp of `generate_lrc` (server.py:186-191):
minutes `int(t // 60)` rendered with `f"{·:02d}"`, seconds `t % 60`
rendered with `f"{·:05.2f}"`. -/
def lrcMinutes (t : ℚ) : String := zfill 2 (intRepr (Int.floor (t / 60)))

/-- Seconds part `t % 60` of an LRC timestamp (Python float `%` is
floored). -/
def lrcSeconds (t : ℚ) : String := zfill 5 (fmt2 (t - 60 * (Int.floor (t / 60) : ℚ)))

/-- A bracketed LRC line timestamp `[MM:SS.ss]`. -/
def lrcTag (t : ℚ) : String := "[" ++ lrcMinutes t ++ ":" ++ lrcSeconds t ++ "]"

/-- An angle-bracketed LRC word timestamp `<MM:SS.ss>` (server.py:200). -/
def lrcWordTag (t : ℚ) : String := "<" ++ lrcMinutes t ++ ":" ++ lrcSeconds t ++ ">"

/-- The word-level line content of one segment before stripping
(server.py:195-200): `f"<MM:SS.ss>{word} "` per word, concatenated. -/
def lrcWordLine (words : List Word) : String :=
  strConcat (words.map (fun word_info => lrcWordTag word_info.start ++ word_info.word ++ " "))

/-- The lines `generate_lrc` emits for one segment (server.py:184-202):
the segment line, and — when the word list is non-empty and the built
word line is non-empty — a second line at the same timestamp with the
word line stripped. -/
def lrcSegmentBlock (segment : Segment) : String :=
  let line1 := lrcTag segment.start ++ segment.text ++ "\n"
  if segment.words ≠ [] then
    let word_line := lrcWordLine segment.words
    if word_line ≠ "" then
      line1 ++ lrcTag segment.start ++ pyStrip word_line ++ "\n"
    else line1
  else line1

/-- Embedding of `generate_lrc` (server.py:177-204): four bracketed
header lines, a blank line, then the per-segment blocks in order. -/
def generate_lrc (segments : List Segment) (project_name : String) : String :=
  "[ti:" ++ project_name ++ "]\n" ++
    "[ar:Generated by Karaoke Subtitles]\n" ++
    "[al:Karaoke]\n" ++
    "[by:Whisper AI]\n\n" ++
    strConcat (segments.map lrcSegmentBlock)

/-! Concrete inputs used by counterexamples and witnesses. -/

/-- The 9-word normalized text of the spec's concrete fallback scenario. -/
def nineWords : String := "one two three four five six seven eight nine"

/-- A concrete word (integer times keep `ℚ` equality kernel-decidable). -/
def demoWordA : Word := { word := "alpha", start := 0, «end» := 1, confidence := 1 }

/-- A second concrete word. -/
def demoWordB : Word := { word := "beta", start := 1, «end» := 2, confidence := 1 }

/-- A third concrete word. -/
def demoWordC : Word := { word := "gamma", start := 2, «end» := 3, confidence := 1 }

/-- A concrete two-word segment. -/
def demoSegAB : Segment :=
  { start := 0, «end» := 2, text := "alpha beta", words := [demoWordA, demoWordB] }

/-- A concrete one-word segment. -/
def demoSegC : Segment :=
  { start := 2, «end» := 3, text := "gamma", words := [demoWordC] }

/-- A concrete two-segment SubtitleSet. -/
def demoSet : List Segment := [demoSegAB, demoSegC]

/-- A recognizer result with one segment holding the single word
`"helo"` with confidence 0.85 (a value that is not a 1-decimal
multiple). -/
def heloResult : WhisperResult :=
  { text := some "helo"
    segments := some [{ start := some 0
                        «end» := some 2
                        text := some "helo"
                        words := some [{ word := some "helo"
                                         start := some 0
                                         «end» := some 2
                                         confidence := some (17/20) }] }] }

/-! Statement abbreviations (not part of the embedded program). -/

/-- The word produced by a valid correction entry: start and end
overwritten verbatim, everything else kept. -/
def updatedWord (word : Word) (c : TimingCorrection) : Word :=
  { word with start := c.new_start_time, «end» := c.new_end_time }

/-- The SubtitleSet produced by one valid correction entry addressing
word `wi` of segment `si`. -/
def updatedSegments (segments : List Segment) (c : TimingCorrection) (si wi : Nat)
    (segment : Segment) (word : Word) : List Segment :=
  segments.set si { segment with words := segment.words.set wi (updatedWord word c) }

end Karaoke

namespace Karaoke

/-! Arithmetic facts about round-half-even and 1-decimal rounding. -/

theorem rhe_intCast (n : ℤ) : rhe (n : ℚ) = n := by
  unfold rhe
  norm_num

theorem floor_le_rhe (x : ℚ) : Int.floor x ≤ rhe x := by
  unfold rhe
  split_ifs <;> omega

theorem rhe_le_floor_add_one (x : ℚ) : rhe x ≤ Int.floor x + 1 := by
  unfold rhe
  split_ifs <;> omega

theorem rhe_mono {a b : ℚ} (h : a ≤ b) : rhe a ≤ rhe b := by
  have hf : Int.floor a ≤ Int.floor b := Int.floor_le_floor h
  rcases lt_or_eq_of_le hf with hlt | heq
  · have h1 := rhe_le_floor_add_one a
    have h2 := floor_le_rhe b
    omega
  · unfold rhe
    rw [← heq]
    split_ifs <;> first | omega | linarith

theorem round1_mono {a b : ℚ} (h : a ≤ b) : round1 a ≤ round1 b := by
  unfold round1
  have := rhe_mono (show 10 * a ≤ 10 * b by linarith)
  have hc : ((rhe (10 * a) : ℚ)) ≤ (rhe (10 * b) : ℚ) := by exact_mod_cast this
  linarith

theorem round1_eq_iff (x y : ℚ) : round1 x = round1 y ↔ rhe (10 * x) = rhe (10 * y) := by
  unfold round1
  constructor
  · intro h
    have : ((rhe (10 * x) : ℚ)) = (rhe (10 * y) : ℚ) := by
      field_simp at h
      exact_mod_cast h
    exact_mod_cast this
  · intro h; rw [h]

theorem rhe_nonneg {x : ℚ} (hx : 0 ≤ x) : 0 ≤ rhe x := by
  have h1 : (0 : ℤ) ≤ Int.floor x := by positivity
  have := floor_le_rhe x
  omega

theorem round1_half_nat (i : ℕ) : round1 ((i : ℚ) * time_per_word) = (i : ℚ) * time_per_word := by
  have h : (10 : ℚ) * ((i : ℚ) * time_per_word) = ((5 * i : ℤ) : ℚ) := by
    unfold time_per_word; push_cast; ring
  unfold round1
  rw [h, rhe_intCast]
  unfold time_per_word
  push_cast
  ring

/-! Decimal digit strings: evaluation and injectivity. -/

theorem digitVal_digitChar {n : Nat} (h : n < 10) : digitVal (digitChar n) = n := by
  interval_cases n <;> decide

theorem digitChar_ne_lt {n : Nat} : digitChar n ≠ '<' := by
  unfold digitChar
  split_ifs <;> decide

theorem digitsVal_append (l : List Char) (c : Char) :
    digitsVal (l ++ [c]) = 10 * digitsVal l + digitVal c := by
  unfold digitsVal
  rw [List.foldl_append]
  rfl

theorem digitsVal_natDigits : ∀ fuel n, n < fuel → digitsVal (natDigits fuel n) = n := by
  intro fuel
  induction fuel with
  | zero => intro n h; omega
  | succ fuel ih =>
    intro n h
    unfold natDigits
    by_cases h10 : n < 10
    · simp only [h10, if_pos]
      unfold digitsVal
      simp [List.foldl, digitVal_digitChar h10]
    · have hrec : n / 10 < fuel := by omega
      simp only [h10, if_neg, if_false]
      rw [digitsVal_append, ih _ hrec, digitVal_digitChar (Nat.mod_lt n (by norm_num))]
      omega

theorem natDigits_inj {fuel1 fuel2 m n : Nat} (h1 : m < fuel1) (h2 : n < fuel2)
    (h : natDigits fuel1 m = natDigits fuel2 n) : m = n := by
  have := digitsVal_natDigits fuel1 m h1
  rw [h, digitsVal_natDigits fuel2 n h2] at this
  omega

theorem lt_not_mem_natDigits : ∀ fuel n, '<' ∉ natDigits fuel n := by
  intro fuel
  induction fuel with
  | zero => intro n; simp [natDigits]
  | succ fuel ih =>
    intro n
    unfold natDigits
    by_cases h10 : n < 10
    · simp [h10, digitChar_ne_lt]
      intro hc
      exact digitChar_ne_lt hc.symm
    · simp [h10]
      exact ⟨ih _, fun hc => digitChar_ne_lt hc.symm⟩

theorem fmt1Chars_of_nonneg {x : ℚ} (hx : 0 ≤ x) :
    fmt1Chars x = natDigits ((rhe (10 * x)).natAbs / 10 + 1) ((rhe (10 * x)).natAbs / 10) ++
      ['.', digitChar ((rhe (10 * x)).natAbs % 10)] := by
  have hn : 0 ≤ rhe (10 * x) := rhe_nonneg (by linarith)
  unfold fmt1Chars
  have h1 : ¬(rhe (10 * x) < 0 ∨ (rhe (10 * x) = 0 ∧ x < 0)) := by
    push_neg
    exact ⟨by omega, fun _ => by linarith⟩
  simp [h1]

theorem fmt1_inj {x y : ℚ} (hx : 0 ≤ x) (hy : 0 ≤ y) (h : fmt1 x = fmt1 y) :
    round1 x = round1 y := by
  unfold fmt1 at h
  have hdata : fmt1Chars x = fmt1Chars y := congrArg String.data h
  rw [fmt1Chars_of_nonneg hx, fmt1Chars_of_nonneg hy] at hdata
  have hinj := List.append_inj' hdata (by rfl)
  rcases hinj with ⟨hpre, hsuf⟩
  have hA : (rhe (10 * x)).natAbs / 10 = (rhe (10 * y)).natAbs / 10 :=
    natDigits_inj (Nat.lt_succ_self _) (Nat.lt_succ_self _) hpre
  have hd : digitChar ((rhe (10 * x)).natAbs % 10) = digitChar ((rhe (10 * y)).natAbs % 10) := by
    injection hsuf with h1 h2
    injection h2 with h3 _
  have hm : (rhe (10 * x)).natAbs % 10 = (rhe (10 * y)).natAbs % 10 := by
    have := congrArg digitVal hd
    rwa [digitVal_digitChar (Nat.mod_lt _ (by norm_num)),
      digitVal_digitChar (Nat.mod_lt _ (by norm_num))] at this
  have habs : (rhe (10 * x)).natAbs = (rhe (10 * y)).natAbs := by omega
  have hx' : 0 ≤ rhe (10 * x) := rhe_nonneg (by linarith)
  have hy' : 0 ≤ rhe (10 * y) := rhe_nonneg (by linarith)
  rw [round1_eq_iff]
  omega

theorem fmt1_congr {x y : ℚ} (hx : 0 ≤ x) (hy : 0 ≤ y) (h : round1 x = round1 y) :
    fmt1 x = fmt1 y := by
  unfold fmt1
  rw [round1_eq_iff] at h
  congr 1
  rw [fmt1Chars_of_nonneg hx, fmt1Chars_of_nonneg hy, h]

end Karaoke

namespace Karaoke

/-! Characterization of the fallback loop. -/

theorem fallbackLoop_length (words : List String) (t : ℚ) :
    (fallbackLoop words t).length = words.length := by
  induction words generalizing t with
  | nil => rfl
  | cons w rest ih => simp [fallbackLoop, ih]

theorem fallbackLoop_get? (words : List String) (t : ℚ) (i : Nat) :
    (fallbackLoop words t).get? i =
      (words.get? i).map (fun w => mkFallbackSeg (t + (i : ℚ) * time_per_word) w) := by
  induction words generalizing t i with
  | nil => simp [fallbackLoop]
  | cons w rest ih =>
    cases i with
    | zero => simp [fallbackLoop]
    | succ j =>
      simp only [fallbackLoop, List.get?]
      rw [ih]
      congr 1
      funext w'
      congr 1
      push_cast
      ring

theorem fallbackSegments_get? (text : String) (i : Nat) :
    (fallbackSegments text).get? i =
      ((pySplit text).get? i).map (fun w => mkFallbackSeg ((i : ℚ) * time_per_word) w) := by
  unfold fallbackSegments
  rw [fallbackLoop_get?]
  congr 1
  funext w
  congr 1
  ring

end Karaoke

namespace Karaoke

/-- C1 (counterexample): with the spec's 9-word text the claim (for
duration 14.0) predicts word 0 ends at `round1 (14/9) = 1.6` and the
final segment ends at `14.0`; the code produces `0.5` and `4.5`. -/
theorem C1_counterexample :
    ((fallbackSegments nineWords).get? 0 |>.map Segment.«end») = some (1/2) ∧
    (1/2 : ℚ) ≠ round1 ((14 : ℚ) / 9) ∧
    ((fallbackSegments nineWords).get? 8 |>.map Segment.«end») = some (9/2) ∧
    ((9/2 : ℚ)) ≠ 14 := by
  have h0 : (pySplit nineWords).get? 0 = some "one" := by decide
  have h8 : (pySplit nineWords).get? 8 = some "nine" := by decide
  refine ⟨?_, ?_, ?_, ?_⟩
  · rw [fallbackSegments_get?, h0]
    simp only [Option.map_some, mkFallbackSeg, Option.some.injEq]
    norm_num [round1, rhe, time_per_word]
  · norm_num [round1, rhe]
  · rw [fallbackSegments_get?, h8]
    simp only [Option.map_some, mkFallbackSeg, Option.some.injEq]
    norm_num [round1, rhe, time_per_word]
  · norm_num

end Karaoke

namespace Karaoke

/-- C1 (amended): for every normalized text with at least one word the
fallback assigns word `i` the interval from `i * 0.5` to `(i+1) * 0.5`
(each bound rounded to 1 decimal at assignment time, which is exact on
these values); the audio duration is never consulted.  The output spans
`[0, 0.5 * word_count]` with no negative timestamps, and every segment's
end (the final one included) equals its last word's end. -/
theorem C1_amended (text : String) (h : 0 < (pySplit text).length) :
    (fallbackSegments text).length = (pySplit text).length ∧
    (∀ i : Nat, (fallbackSegments text).get? i =
      ((pySplit text).get? i).map (fun w => mkFallbackSeg ((i : ℚ) * time_per_word) w)) ∧
    (∀ i : Nat, ∀ s, (fallbackSegments text).get? i = some s →
      s.start = (i : ℚ) * time_per_word ∧
      s.«end» = ((i : ℚ) + 1) * time_per_word ∧
      s.words.map Word.start = [(i : ℚ) * time_per_word] ∧
      s.words.map Word.«end» = [((i : ℚ) + 1) * time_per_word] ∧
      0 ≤ s.start ∧ s.start < s.«end» ∧
      s.«end» ≤ ((pySplit text).length : ℚ) * time_per_word ∧
      s.words.getLast?.map Word.«end» = some s.«end») ∧
    ((fallbackSegments text).get? 0 |>.map Segment.start) = some 0 ∧
    ((fallbackSegments text).get? ((pySplit text).length - 1) |>.map Segment.«end») =
      some (((pySplit text).length : ℚ) * time_per_word) := by
  have hround : ∀ i : Nat, round1 ((i : ℚ) * time_per_word + time_per_word) =
      ((i : ℚ) + 1) * time_per_word := by
    intro i
    have hcast : (i : ℚ) * time_per_word + time_per_word = ((i + 1 : ℕ) : ℚ) * time_per_word := by
      push_cast; ring
    rw [hcast, round1_half_nat]
    push_cast; ring
  refine ⟨?_, fallbackSegments_get? text, ?_, ?_, ?_⟩
  · exact fallbackLoop_length _ _
  · intro i s hs
    rw [fallbackSegments_get? text i] at hs
    cases hw : (pySplit text).get? i with
    | none => rw [hw] at hs; simp at hs
    | some w =>
      rw [hw] at hs
      simp only [Option.map_some', Option.some.injEq] at hs
      subst hs
      have hi : i < (pySplit text).length := (List.get?_eq_some.mp hw).1
      simp only [mkFallbackSeg, List.map_cons, List.map_nil, List.getLast?_singleton,
        Option.map_some', Option.some.injEq]
      refine ⟨round1_half_nat i, hround i, by rw [round1_half_nat i], by rw [hround i], ?_, ?_, ?_, trivial⟩
      · rw [round1_half_nat i]
        unfold time_per_word
        positivity
      · rw [round1_half_nat i, hround i]
        unfold time_per_word
        linarith
      · rw [hround i]
        have hc : (i : ℚ) + 1 ≤ ((pySplit text).length : ℚ) := by exact_mod_cast hi
        unfold time_per_word
        linarith
  · cases hw : (pySplit text).get? 0 with
    | none => rw [List.get?_eq_none] at hw; omega
    | some w =>
      rw [fallbackSegments_get?, hw]
      simp only [Option.map_some', mkFallbackSeg, Option.some.injEq]
      norm_num [round1, rhe]
  · have h1 : (1 : ℕ) ≤ (pySplit text).length := h
    cases hw : (pySplit text).get? ((pySplit text).length - 1) with
    | none => rw [List.get?_eq_none] at hw; omega
    | some w =>
      rw [fallbackSegments_get?, hw]
      simp only [Option.map_some', mkFallbackSeg, Option.some.injEq]
      rw [hround]
      rw [Nat.cast_sub h1]
      push_cast
      ring

end Karaoke

namespace Karaoke

/-- C1 (witness): the amended theorem evaluated on a concrete two-word
text. -/
theorem C1_witness :
    (fallbackSegments "alpha beta").length = (pySplit "alpha beta").length ∧
    ((fallbackSegments "alpha beta").get? 0 |>.map Segment.start) = some 0 :=
  ⟨(C1_amended "alpha beta" (by decide)).1, (C1_amended "alpha beta" (by decide)).2.2.2.1⟩

/-- C2 (counterexample): the spec's 9-word, 14-second scenario: the claim
predicts two segments, the first spanning `[0.0, 10.9]`; the code emits
nine segments and the first ends at `0.5`. -/
theorem C2_counterexample :
    (fallbackSegments nineWords).length = 9 ∧
    (fallbackSegments nineWords).length ≠ 2 ∧
    ((fallbackSegments nineWords).get? 0 |>.map Segment.«end») ≠ some ((109 : ℚ) / 10) := by
  have hlen : (fallbackSegments nineWords).length = 9 := by
    unfold fallbackSegments
    rw [fallbackLoop_length]
    decide
  refine ⟨hlen, by omega, ?_⟩
  have h0 : (pySplit nineWords).get? 0 = some "one" := by decide
  rw [fallbackSegments_get?, h0]
  simp only [Option.map_some', mkFallbackSeg, Option.some.injEq, ne_eq]
  norm_num [round1, rhe, time_per_word]

/-- C2 (amended): the fallback closes a segment after every single word
(no 7-word accumulation): each produced segment holds exactly one word,
whose rounded bounds and text are the segment's own start, end and text;
in particular the 9-word text yields nine one-word segments. -/
theorem C2_amended (text : String) :
    (fallbackSegments text).length = (pySplit text).length ∧
    (∀ s ∈ fallbackSegments text, ∃ w, s.words = [w] ∧
      s.start = w.start ∧ s.«end» = w.«end» ∧ s.text = w.word) := by
  refine ⟨fallbackLoop_length _ _, ?_⟩
  intro s hs
  rcases List.mem_iff_get?.mp hs with ⟨i, hi⟩
  rw [fallbackSegments_get? text i] at hi
  cases hw : (pySplit text).get? i with
  | none => rw [hw] at hi; simp at hi
  | some w =>
    rw [hw] at hi
    simp only [Option.map_some', Option.some.injEq] at hi
    subst hi
    exact ⟨_, rfl, rfl, rfl, rfl⟩

/-- C2 (witness): the nine-word text yields nine segments and the first
is a one-word segment made of its word's bounds and text. -/
theorem C2_witness :
    (fallbackSegments nineWords).length = (pySplit nineWords).length ∧
    (∀ s ∈ fallbackSegments nineWords, ∃ w, s.words = [w] ∧
      s.start = w.start ∧ s.«end» = w.«end» ∧ s.text = w.word) :=
  C2_amended nineWords

end Karaoke

namespace Karaoke

/-! Python indexing facts. -/

theorem pyIndex_ofNat {len si : Nat} (h : si < len) : pyIndex len (si : ℤ) = some si := by
  unfold pyIndex
  rw [if_pos (Int.ofNat_nonneg si), if_pos (by exact_mod_cast h)]
  simp

theorem pyIndex_neg_shift {len : Nat} {i : ℤ} (h1 : -(len : ℤ) ≤ i) (h2 : i < 0) :
    pyIndex len i = pyIndex len ((len : ℤ) + i) := by
  unfold pyIndex
  rw [if_neg (by omega), if_pos (by omega), if_pos (by omega), if_pos (by omega)]

theorem pyIndex_none {len : Nat} {i : ℤ} (h : i < -(len : ℤ)) : pyIndex len i = none := by
  unfold pyIndex
  rw [if_neg (by omega), if_neg (by omega)]

theorem applyCorrection_skip_seg {segments : List Segment} {c : TimingCorrection}
    (h : (segments.length : ℤ) ≤ c.segment_index) :
    applyCorrection segments c = some segments := by
  unfold applyCorrection
  rw [if_neg (by omega)]

theorem applyCorrection_valid {segments : List Segment} {c : TimingCorrection} {si wi : Nat}
    (hsi : c.segment_index = (si : ℤ)) (hwi : c.word_index = (wi : ℤ))
    {segment : Segment} (hseg : segments.get? si = some segment)
    {word : Word} (hword : segment.words.get? wi = some word) :
    applyCorrection segments c = some (updatedSegments segments c si wi segment word) := by
  have hslt : si < segments.length := (List.get?_eq_some.mp hseg).1
  have hwlt : wi < segment.words.length := (List.get?_eq_some.mp hword).1
  unfold applyCorrection
  rw [hsi, hwi, if_pos (by exact_mod_cast hslt), pyIndex_ofNat hslt]
  dsimp only
  rw [hseg]
  dsimp only
  rw [if_pos (by exact_mod_cast hwlt), pyIndex_ofNat hwlt]
  dsimp only
  rw [hword]
  rfl

theorem applyCorrection_skip_word {segments : List Segment} {c : TimingCorrection} {si : Nat}
    (hsi : c.segment_index = (si : ℤ))
    {segment : Segment} (hseg : segments.get? si = some segment)
    (h : (segment.words.length : ℤ) ≤ c.word_index) :
    applyCorrection segments c = some segments := by
  have hslt : si < segments.length := (List.get?_eq_some.mp hseg).1
  unfold applyCorrection
  rw [hsi, if_pos (by exact_mod_cast hslt), pyIndex_ofNat hslt]
  dsimp only
  rw [hseg]
  dsimp only
  rw [if_neg (by omega)]

end Karaoke

namespace Karaoke

/-- C3 (counterexample): an entry with `segment_index = -1` lies outside
`[0, len)` yet is not skipped: on the two-segment demo set it edits the
last segment's word; and an entry with `segment_index = -5` makes the
whole batch fail, dropping a valid later entry. -/
theorem C3_counterexample :
    correct_timing demoSet
      [{ segment_index := -1, word_index := 0, new_start_time := 9, new_end_time := 10 }] =
      some [demoSegAB, { demoSegC with words := [{ demoWordC with start := 9, «end» := 10 }] }] ∧
    correct_timing demoSet
      [{ segment_index := -1, word_index := 0, new_start_time := 9, new_end_time := 10 }] ≠
      some demoSet ∧
    correct_timing demoSet
      [{ segment_index := -5, word_index := 0, new_start_time := 9, new_end_time := 10 },
       { segment_index := 0, word_index := 0, new_start_time := 7, new_end_time := 8 }] =
      none := by
  refine ⟨by decide, by decide, by decide⟩

/-- C3 (amended): an entry whose `segment_index` is at least
`len(segments)`, or whose `word_index` is at least the addressed
segment's word count, is silently skipped and the rest of the batch
still applies; only these upper bounds are checked (negative indices are
not skipped, see the C9 theorem). -/
theorem C3_amended (segments : List Segment) (c : TimingCorrection) (rest : List TimingCorrection)
    (h : (segments.length : ℤ) ≤ c.segment_index ∨
      (∃ si : Nat, c.segment_index = (si : ℤ) ∧
        ∃ segment, segments.get? si = some segment ∧
          (segment.words.length : ℤ) ≤ c.word_index)) :
    applyCorrection segments c = some segments ∧
    correct_timing segments (c :: rest) = correct_timing segments rest := by
  have hskip : applyCorrection segments c = some segments := by
    rcases h with h | ⟨si, hsi, segment, hseg, hw⟩
    · exact applyCorrection_skip_seg h
    · exact applyCorrection_skip_word hsi hseg hw
  refine ⟨hskip, ?_⟩
  have hcons : correct_timing segments (c :: rest) =
      applyCorrection segments c >>= fun b => rest.foldlM applyCorrection b := rfl
  rw [hcons, hskip]
  rfl

/-- C3 (witness): an entry addressing segment 5 of the two-segment demo
set is skipped and the batch continues. -/
theorem C3_witness :
    applyCorrection demoSet
      { segment_index := 5, word_index := 0, new_start_time := 9, new_end_time := 10 } =
      some demoSet ∧
    correct_timing demoSet
      [{ segment_index := 5, word_index := 0, new_start_time := 9, new_end_time := 10 }] =
      correct_timing demoSet [] :=
  C3_amended demoSet
    { segment_index := 5, word_index := 0, new_start_time := 9, new_end_time := 10 } []
    (Or.inl (by decide))

/-- C5 (confirmed): a correction entry with valid indices overwrites
exactly the addressed word's start and end with the given values
verbatim; every other segment, every other word, the word's text and
confidence, and the containing segment's start/end/text are unchanged
(segment bounds are not recomputed). -/
theorem C5_theorem (segments : List Segment) (c : TimingCorrection) (si wi : Nat)
    (hsi : c.segment_index = (si : ℤ)) (hwi : c.word_index = (wi : ℤ))
    (segment : Segment) (hseg : segments.get? si = some segment)
    (word : Word) (hword : segment.words.get? wi = some word) :
    applyCorrection segments c = some (updatedSegments segments c si wi segment word) ∧
    (updatedSegments segments c si wi segment word).length = segments.length ∧
    (∀ j, j ≠ si → (updatedSegments segments c si wi segment word).get? j = segments.get? j) ∧
    (updatedSegments segments c si wi segment word).get? si =
      some { segment with words := segment.words.set wi (updatedWord word c) } ∧
    ({ segment with words := segment.words.set wi (updatedWord word c) }).start = segment.start ∧
    ({ segment with words := segment.words.set wi (updatedWord word c) }).«end» = segment.«end» ∧
    ({ segment with words := segment.words.set wi (updatedWord word c) }).text = segment.text ∧
    (segment.words.set wi (updatedWord word c)).length = segment.words.length ∧
    (∀ k, k ≠ wi → (segment.words.set wi (updatedWord word c)).get? k = segment.words.get? k) ∧
    (segment.words.set wi (updatedWord word c)).get? wi = some (updatedWord word c) ∧
    (updatedWord word c).word = word.word ∧
    (updatedWord word c).confidence = word.confidence ∧
    (updatedWord word c).start = c.new_start_time ∧
    (updatedWord word c).«end» = c.new_end_time := by
  have hslt : si < segments.length := (List.get?_eq_some.mp hseg).1
  have hwlt : wi < segment.words.length := (List.get?_eq_some.mp hword).1
  refine ⟨applyCorrection_valid hsi hwi hseg hword, ?_, ?_, ?_, rfl, rfl, rfl, ?_, ?_, ?_,
    rfl, rfl, rfl, rfl⟩
  · unfold updatedSegments
    exact List.length_set segments _ _
  · intro j hj
    unfold updatedSegments
    exact List.get?_set_ne _ _ (Ne.symm hj)
  · unfold updatedSegments
    exact List.get?_set_eq_of_lt _ hslt
  · exact List.length_set _ _ _
  · intro k hk
    exact List.get?_set_ne _ _ (Ne.symm hk)
  · exact List.get?_set_eq_of_lt _ hwlt

/-- C5 (witness): the theorem evaluated on the demo set, editing word 1
of segment 0. -/
theorem C5_witness :
    applyCorrection demoSet
      { segment_index := 0, word_index := 1, new_start_time := 9, new_end_time := 10 } =
      some (updatedSegments demoSet
        { segment_index := 0, word_index := 1, new_start_time := 9, new_end_time := 10 }
        0 1 demoSegAB demoWordB) :=
  (C5_theorem demoSet
    { segment_index := 0, word_index := 1, new_start_time := 9, new_end_time := 10 }
    0 1 rfl rfl demoSegAB (by decide) demoWordB (by decide)).1

end Karaoke

namespace Karaoke

/-- C9 (confirmed): negative correction indices are not range-checked.
An index in `[-len, -1]` behaves exactly like the corresponding
from-the-end index `len + i` (Python negative indexing), both at segment
and at word level, while an index below `-len` raises an uncaught
`IndexError` that aborts the whole batch with no persisted change. -/
theorem C9_theorem (segments : List Segment) (c : TimingCorrection) (rest : List TimingCorrection) :
    (-(segments.length : ℤ) ≤ c.segment_index → c.segment_index < 0 →
      applyCorrection segments c =
        applyCorrection segments
          { c with segment_index := (segments.length : ℤ) + c.segment_index }) ∧
    (c.segment_index < -(segments.length : ℤ) →
      applyCorrection segments c = none ∧ correct_timing segments (c :: rest) = none) ∧
    (∀ si : Nat, c.segment_index = (si : ℤ) → ∀ segment, segments.get? si = some segment →
      -(segment.words.length : ℤ) ≤ c.word_index → c.word_index < 0 →
      applyCorrection segments c =
        applyCorrection segments
          { c with word_index := (segment.words.length : ℤ) + c.word_index }) := by
  refine ⟨?_, ?_, ?_⟩
  · intro h1 h2
    unfold applyCorrection
    dsimp only
    rw [if_pos (by omega), if_pos (by omega), ← pyIndex_neg_shift h1 h2]
  · intro h
    have happ : applyCorrection segments c = none := by
      unfold applyCorrection
      rw [if_pos (by omega), pyIndex_none h]
    refine ⟨happ, ?_⟩
    have hcons : correct_timing segments (c :: rest) =
        applyCorrection segments c >>= fun b => rest.foldlM applyCorrection b := rfl
    rw [hcons, happ]
    rfl
  · intro si hsi segment hseg h1 h2
    have hslt : si < segments.length := (List.get?_eq_some.mp hseg).1
    unfold applyCorrection
    dsimp only
    rw [hsi, if_pos (by exact_mod_cast hslt), if_pos (by exact_mod_cast hslt),
      pyIndex_ofNat hslt]
    dsimp only
    rw [hseg]
    dsimp only
    rw [if_pos (by omega), if_pos (by omega), ← pyIndex_neg_shift h1 h2]

/-- C9 (witness): on the two-segment demo set, segment index `-1` edits
as index `1`, and segment index `-5` aborts the batch. -/
theorem C9_witness :
    applyCorrection demoSet
      { segment_index := -1, word_index := 0, new_start_time := 9, new_end_time := 10 } =
      applyCorrection demoSet
        { TimingCorrection.mk (-1) 0 9 10 with segment_index := ((demoSet.length : ℤ) + -1) } ∧
    correct_timing demoSet
      [{ segment_index := -5, word_index := 0, new_start_time := 9, new_end_time := 10 }] =
      none :=
  ⟨(C9_theorem demoSet (TimingCorrection.mk (-1) 0 9 10) []).1 (by decide) (by decide),
   ((C9_theorem demoSet (TimingCorrection.mk (-5) 0 9 10) []).2.1 (by decide)).2⟩

end Karaoke

namespace Karaoke

/-- The aligner's `best_match` search is the first reference word
satisfying the substring test, defaulting to the recognizer word. -/
theorem bestMatchLoop_eq_find (word : String) (l : List String) :
    bestMatchLoop word l = (l.find? (matchPred word)).getD word := by
  induction l with
  | nil => rfl
  | cons o rest ih =>
    rw [show bestMatchLoop word (o :: rest) =
      (if matchPred word o then o else bestMatchLoop word rest) from rfl]
    by_cases h : matchPred word o
    · rw [if_pos h, List.find?_cons_of_pos _ h]
      rfl
    · rw [if_neg h, List.find?_cons_of_neg _ (by simpa using h), ih]

/-- C4 (counterexample): recognizer word `"helo"` against reference
`"hello world"` keeps its own text (that part of the claim holds), but
its confidence `0.85` is emitted verbatim, not rounded to 1 decimal as
the claim states. -/
theorem C4_counterexample :
    ((align_text_with_whisper heloResult "hello world").get? 0 |>.map
      (fun s => s.words.map Word.word)) = some ["helo"] ∧
    ((align_text_with_whisper heloResult "hello world").get? 0 |>.map
      (fun s => s.words.map Word.confidence)) = some [(17/20 : ℚ)] ∧
    round1 (17/20) ≠ (17/20 : ℚ) := by
  refine ⟨by decide, ?_, by norm_num [round1, rhe]⟩
  rfl

/-- C4 (amended): for every recognizer word the aligner substitutes the
first reference word (in reference order) for which the case-insensitive
substring test holds in either direction, and keeps the recognizer's own
(stripped) text when no reference word matches; the output word carries
the recognizer's start and end rounded to 1 decimal and its confidence
verbatim (defaulting to 0.8), not rounded. -/
theorem C4_amended (original_words : List String) (word_info : WhisperWord) :
    (alignWord original_words word_info).word =
      ((original_words.find? (matchPred (pyStrip (word_info.word.getD "")))).getD
        (pyStrip (word_info.word.getD ""))) ∧
    ((∀ o ∈ original_words, matchPred (pyStrip (word_info.word.getD "")) o = false) →
      (alignWord original_words word_info).word = pyStrip (word_info.word.getD "")) ∧
    (alignWord original_words word_info).start = round1 (word_info.start.getD 0) ∧
    (alignWord original_words word_info).«end» = round1 (word_info.«end».getD 0) ∧
    (alignWord original_words word_info).confidence = word_info.confidence.getD (4/5) := by
  refine ⟨bestMatchLoop_eq_find _ _, ?_, rfl, rfl, rfl⟩
  intro hall
  rw [show (alignWord original_words word_info).word =
    bestMatchLoop (pyStrip (word_info.word.getD "")) original_words from rfl,
    bestMatchLoop_eq_find]
  have hnone : original_words.find? (matchPred (pyStrip (word_info.word.getD ""))) = none := by
    rw [List.find?_eq_none]
    intro o ho
    simp [hall o ho]
  rw [hnone]
  rfl

/-- C4 (witness): the amended theorem evaluated at the `"helo"` example:
no reference word of `["hello", "world"]` matches, so the text stays
`"helo"` and the confidence `0.85` passes through. -/
theorem C4_witness :
    (alignWord ["hello", "world"]
      { word := some "helo", start := some 0, «end» := some 2,
        confidence := some (17/20) }).word = pyStrip ((some "helo").getD "") ∧
    (alignWord ["hello", "world"]
      { word := some "helo", start := some 0, «end» := some 2,
        confidence := some (17/20) }).confidence = (some (17/20 : ℚ)).getD (4/5) :=
  ⟨(C4_amended ["hello", "world"] _).2.1 (by decide),
   (C4_amended ["hello", "world"] _).2.2.2.2⟩

/-- C10 (confirmed): the aligner copies the recognizer confidence
verbatim (no rounding) and uses exactly 0.8 when the recognizer supplies
none. -/
theorem C10_theorem (original_words : List String) (word_info : WhisperWord) :
    (alignWord original_words word_info).confidence = word_info.confidence.getD (4/5) ∧
    (word_info.confidence = none → (alignWord original_words word_info).confidence = 4/5) ∧
    (∀ q : ℚ, word_info.confidence = some q →
      (alignWord original_words word_info).confidence = q) := by
  refine ⟨rfl, ?_, ?_⟩
  · intro h
    show word_info.confidence.getD (4/5) = 4/5
    rw [h]
    rfl
  · intro q h
    show word_info.confidence.getD (4/5) = q
    rw [h]
    rfl

/-- C10 (witness): both the default and the verbatim case evaluated on
concrete recognizer words. -/
theorem C10_witness :
    (alignWord []
      { word := some "a", start := some 0, «end» := some 1,
        confidence := none }).confidence = 4/5 ∧
    (alignWord []
      { word := some "a", start := some 0, «end» := some 1,
        confidence := some (17/20) }).confidence = 17/20 :=
  ⟨(C10_theorem [] _).2.1 rfl, (C10_theorem [] _).2.2 (17/20) rfl⟩

end Karaoke

namespace Karaoke

/-- The fallback yields no segments exactly when the split text has no
words. -/
theorem fallbackSegments_eq_nil_iff (text : String) :
    fallbackSegments text = [] ↔ pySplit text = [] := by
  unfold fallbackSegments
  cases h : pySplit text with
  | nil => simp [fallbackLoop]
  | cons w rest => simp [fallbackLoop]

/-- C8 (counterexample): a decodable text with zero words is not
reported as an error: processing completes normally and stores an empty
(not absent) SubtitleSet. -/
theorem C8_counterexample :
    process_fallback (Except.ok "") = ProcessResult.completed [] ∧
    process_fallback (Except.ok "   ") = ProcessResult.completed [] := by
  constructor <;> rfl

/-- C8 (amended): only undecodable text is reported as an error to the
caller (status `"error"`), aborting processing with no SubtitleSet
stored; a zero word count is not an error — the fallback stores an empty
SubtitleSet and marks the project completed — and a non-positive
duration is never checked because the fallback does not consult the
duration at all. -/
theorem C8_amended (e : String) (t : String) :
    process_fallback (Except.error e) = ProcessResult.error e ∧
    process_fallback (Except.ok t) = ProcessResult.completed (fallbackSegments t) ∧
    (pySplit t = [] → process_fallback (Except.ok t) = ProcessResult.completed []) ∧
    (∀ msg, process_fallback (Except.ok t) ≠ ProcessResult.error msg) := by
  refine ⟨rfl, rfl, ?_, ?_⟩
  · intro h
    show ProcessResult.completed (fallbackSegments t) = ProcessResult.completed []
    rw [(fallbackSegments_eq_nil_iff t).mpr h]
  · intro msg h
    exact ProcessResult.noConfusion h

/-- C8 (witness): the amended theorem evaluated on an empty text and on
a failed extraction. -/
theorem C8_witness :
    process_fallback (Except.error "bad utf-8") = ProcessResult.error "bad utf-8" ∧
    process_fallback (Except.ok "") = ProcessResult.completed [] :=
  ⟨(C8_amended "bad utf-8" "").1, (C8_amended "bad utf-8" "").2.2.1 (by decide)⟩

end Karaoke

namespace Karaoke

/-- Appending the unit suffix `"s"` is injective. -/
theorem append_s_cancel {a b : String} (h : a ++ "s" = b ++ "s") : a = b := by
  have hd : a.data ++ "s".data = b.data ++ "s".data := congrArg String.data h
  have := (List.append_inj' hd rfl).1
  cases a
  cases b
  exact congrArg String.mk this

/-- C6 (counterexample): one segment with start 1.21 and end 1.24 — a
well-formed Word/Segment time pair with distinct endpoints — serializes
with equal begin and end attributes `"1.2s"`, so attribute equality does
not imply the source times were equal. -/
theorem C6_counterexample :
    generate_ttml [{ start := 121/100, «end» := 124/100, text := "x", words := [] }] "P" =
      [{ begin := "1.2s", «end» := "1.2s", style := "defaultStyle", text := "x" }] ∧
    ((121 : ℚ)/100 ≠ 124/100) := by
  have h1 : fmt1 (121/100) = "1.2" := by
    simp only [fmt1, fmt1Chars]
    rw [show rhe (10 * (121/100 : ℚ)) = 12 from by norm_num [rhe]]
    decide
  have h2 : fmt1 (124/100) = "1.2" := by
    simp only [fmt1, fmt1Chars]
    rw [show rhe (10 * (124/100 : ℚ)) = 12 from by norm_num [rhe]]
    decide
  constructor
  · unfold generate_ttml
    rw [List.map_singleton]
    rw [show ({ start := 121/100, «end» := 124/100, text := "x", words := [] } : Segment).start
      = 121/100 from rfl]
    rw [h1, h2]
    rfl
  · norm_num

/-- C6 (amended): one paragraph per segment in order, begin/end
attributes `f"{t:.1f}s"`, content the segment's text, and output
independent of the word lists (no word-level timing).  For non-negative,
ordered segment times the rounded begin value is at most the rounded end
value, and the begin and end attributes are equal exactly when the two
times round to the same 1-decimal value (not only when the source times
are equal). -/
theorem C6_amended (segments : List Segment) (project_name : String)
    (h : ∀ s ∈ segments, 0 ≤ s.start ∧ s.start ≤ s.«end») :
    (generate_ttml segments project_name).length = segments.length ∧
    (∀ i : Nat, (generate_ttml segments project_name).get? i = (segments.get? i).map
      (fun s => { begin := fmt1 s.start ++ "s", «end» := fmt1 s.«end» ++ "s",
                  style := "defaultStyle", text := s.text })) ∧
    (∀ s ∈ segments, round1 s.start ≤ round1 s.«end» ∧
      (fmt1 s.start ++ "s" = fmt1 s.«end» ++ "s" ↔ round1 s.start = round1 s.«end»)) ∧
    (∀ f : Segment → Segment,
      (∀ s, (f s).start = s.start ∧ (f s).«end» = s.«end» ∧ (f s).text = s.text) →
      generate_ttml (segments.map f) project_name = generate_ttml segments project_name) := by
  refine ⟨by simp [generate_ttml], ?_, ?_, ?_⟩
  · intro i
    unfold generate_ttml
    exact List.get?_map _ _ _
  · intro s hs
    obtain ⟨h0, hle⟩ := h s hs
    have h0e : 0 ≤ s.«end» := le_trans h0 hle
    refine ⟨round1_mono hle, ?_, ?_⟩
    · intro hfmt
      exact fmt1_inj h0 h0e (append_s_cancel hfmt)
    · intro hr
      rw [fmt1_congr h0 h0e hr]
  · intro f hf
    unfold generate_ttml
    rw [List.map_map]
    refine List.map_eq_map_iff.mpr ?_
    intro s _
    obtain ⟨h1, h2, h3⟩ := hf s
    simp only [Function.comp_apply, h1, h2, h3]

/-- C6 (witness): the amended theorem evaluated on the demo set. -/
theorem C6_witness :
    (generate_ttml demoSet "Demo").length = demoSet.length ∧
    (∀ s ∈ demoSet, round1 s.start ≤ round1 s.«end» ∧
      (fmt1 s.start ++ "s" = fmt1 s.«end» ++ "s" ↔ round1 s.start = round1 s.«end»)) :=
  ⟨(C6_amended demoSet "Demo" (by decide)).1, (C6_amended demoSet "Demo" (by decide)).2.2.1⟩

end Karaoke

namespace Karaoke

/-! Character-count and length facts for the LRC serializer. -/

theorem countChar_append (c : Char) (a b : String) :
    countChar c (a ++ b) = countChar c a + countChar c b := by
  show (a.data ++ b.data).count c = a.data.count c + b.data.count c
  exact List.count_append c a.data b.data

theorem countChar_eq_zero {c : Char} {s : String} (h : c ∉ s.data) : countChar c s = 0 :=
  List.count_eq_zero.mpr h

theorem count_stripChars {c : Char} (hc : ¬c.isWhitespace) (l : List Char) :
    (stripChars l).count c = l.count c := by
  have hdrop : ∀ m : List Char, (m.dropWhile Char.isWhitespace).count c = m.count c := by
    intro m
    conv_rhs => rw [← List.takeWhile_append_dropWhile (p := Char.isWhitespace) (l := m)]
    rw [List.count_append]
    have hz : (m.takeWhile Char.isWhitespace).count c = 0 := by
      rw [List.count_eq_zero]
      intro hmem
      exact hc (by simpa using List.mem_takeWhile_imp hmem)
    omega
  unfold stripChars
  rw [List.count_reverse, hdrop, List.count_reverse, hdrop]

theorem countChar_pyStrip {c : Char} (hc : ¬c.isWhitespace) (s : String) :
    countChar c (pyStrip s) = countChar c s :=
  count_stripChars hc s.data

theorem not_mem_append_str {c : Char} {a b : String} (ha : c ∉ a.data) (hb : c ∉ b.data) :
    c ∉ (a ++ b).data := by
  show c ∉ a.data ++ b.data
  rw [List.mem_append]
  tauto

theorem lt_not_mem_natRepr (n : Nat) : '<' ∉ (natRepr n).data :=
  lt_not_mem_natDigits _ _

theorem lt_not_mem_intRepr (n : ℤ) : '<' ∉ (intRepr n).data := by
  unfold intRepr
  split_ifs
  · exact not_mem_append_str (by decide) (lt_not_mem_natRepr _)
  · exact not_mem_append_str (by decide) (lt_not_mem_natRepr _)

theorem lt_not_mem_padZeros {w : Nat} {s : String} (h : '<' ∉ s.data) :
    '<' ∉ (padZeros w s).data := by
  unfold padZeros
  split_ifs with hw
  · exact h
  · show '<' ∉ (List.replicate (w - s.length) '0' ++ s.data)
    rw [List.mem_append]
    rintro (hmem | hmem)
    · have := List.eq_of_mem_replicate hmem
      simp at this
    · exact h hmem

theorem lt_not_mem_zfill {w : Nat} {s : String} (h : '<' ∉ s.data) :
    '<' ∉ (zfill w s).data := by
  unfold zfill
  split_ifs with hd
  · refine not_mem_append_str (by decide) (lt_not_mem_padZeros ?_)
    intro hmem
    exact h (List.mem_of_mem_drop hmem)
  · exact lt_not_mem_padZeros h

theorem lt_not_mem_fmt2 (x : ℚ) : '<' ∉ (fmt2 x).data := by
  show '<' ∉ fmt2Chars x
  unfold fmt2Chars
  rw [List.mem_append, List.mem_append]
  rintro ((hmem | hmem) | hmem)
  · split_ifs at hmem <;> simp_all
  · exact lt_not_mem_natDigits _ _ hmem
  · simp only [List.mem_cons, List.not_mem_nil, or_false] at hmem
    rcases hmem with h1 | h1 | h1
    · exact absurd h1 (by decide)
    · exact digitChar_ne_lt h1.symm
    · exact digitChar_ne_lt h1.symm

theorem lt_not_mem_lrcMinutes (t : ℚ) : '<' ∉ (lrcMinutes t).data :=
  lt_not_mem_zfill (lt_not_mem_intRepr _)

theorem lt_not_mem_lrcSeconds (t : ℚ) : '<' ∉ (lrcSeconds t).data :=
  lt_not_mem_zfill (lt_not_mem_fmt2 _)

theorem countChar_lrcWordTag (t : ℚ) : countChar '<' (lrcWordTag t) = 1 := by
  unfold lrcWordTag
  rw [countChar_append, countChar_append, countChar_append, countChar_append]
  rw [countChar_eq_zero (lt_not_mem_lrcMinutes t), countChar_eq_zero (lt_not_mem_lrcSeconds t)]
  decide

theorem countChar_lrcWordLine {words : List Word}
    (h : ∀ w ∈ words, '<' ∉ w.word.data) :
    countChar '<' (lrcWordLine words) = words.length := by
  induction words with
  | nil => rfl
  | cons w rest ih =>
    rw [show lrcWordLine (w :: rest) =
      (lrcWordTag w.start ++ w.word ++ " ") ++ lrcWordLine rest from rfl]
    rw [countChar_append, countChar_append, countChar_append, countChar_lrcWordTag,
      countChar_eq_zero (h w (by simp)), ih (fun w' hw' => h w' (by simp [hw']))]
    rw [show countChar '<' " " = 0 from rfl]
    simp only [List.length_cons]
    omega

theorem lrcWordLine_ne_empty (w : Word) (rest : List Word) :
    lrcWordLine (w :: rest) ≠ "" := by
  intro heq
  have hlen := congrArg String.length heq
  rw [show lrcWordLine (w :: rest) =
    (lrcWordTag w.start ++ w.word ++ " ") ++ lrcWordLine rest from rfl,
    show lrcWordTag w.start =
      "<" ++ lrcMinutes w.start ++ ":" ++ lrcSeconds w.start ++ ">" from rfl] at hlen
  simp only [String.length_append] at hlen
  rw [show ("<" : String).length = 1 from rfl, show ("" : String).length = 0 from rfl] at hlen
  omega

theorem padZeros_length (w : Nat) (s : String) : (padZeros w s).length = max w s.length := by
  unfold padZeros
  split_ifs with h
  · omega
  · rw [String.length_append]
    rw [show (String.mk (List.replicate (w - s.length) '0')).length =
      (List.replicate (w - s.length) '0').length from rfl, List.length_replicate]
    omega

theorem zfill_length (w : Nat) (s : String) : (zfill w s).length = max w s.length := by
  unfold zfill
  split_ifs with h
  · have hne : s.data ≠ [] := by
      intro hnil
      rw [hnil] at h
      simp at h
    have hpos : 1 ≤ s.length := by
      have := List.length_pos.mpr hne
      exact this
    rw [String.length_append, padZeros_length]
    rw [show ("-" : String).length = 1 from rfl,
      show (String.mk (s.data.drop 1)).length = (s.data.drop 1).length from rfl,
      List.length_drop]
    have hs : s.length = s.data.length := rfl
    omega
  · exact padZeros_length w s

end Karaoke

namespace Karaoke

/-- C7 (confirmed): the LRC serializer emits the four bracketed header
lines (title from the display name, then fixed artist/album/tool labels)
and a blank line, then one block per segment in order: the segment line
`[MM:SS.ss]<text>` built from floored division and modulo by 60 of the
segment's start, and — precisely when the segment has at least one
word — a second line at the same timestamp whose stripped word line
carries exactly one angle-bracket timestamp tag per word; minutes are
zero-padded to width 2 but never truncated. -/
theorem C7_theorem (segments : List Segment) (project_name : String)
    (h : ∀ s ∈ segments, ∀ w ∈ s.words, '<' ∉ w.word.data) :
    generate_lrc segments project_name =
      "[ti:" ++ project_name ++ "]\n" ++ "[ar:Generated by Karaoke Subtitles]\n" ++
        "[al:Karaoke]\n" ++ "[by:Whisper AI]\n\n" ++
        strConcat (segments.map lrcSegmentBlock) ∧
    (∀ s ∈ segments, s.words = [] →
      lrcSegmentBlock s = lrcTag s.start ++ s.text ++ "\n") ∧
    (∀ s ∈ segments, s.words ≠ [] →
      lrcSegmentBlock s =
        lrcTag s.start ++ s.text ++ "\n" ++ lrcTag s.start ++ pyStrip (lrcWordLine s.words) ++ "\n" ∧
      countChar '<' (pyStrip (lrcWordLine s.words)) = s.words.length) ∧
    (∀ t : ℚ, (lrcMinutes t).length = max 2 (intRepr (Int.floor (t / 60))).length) := by
  refine ⟨rfl, ?_, ?_, ?_⟩
  · intro s _ hw
    simp only [lrcSegmentBlock]
    rw [hw]
    simp
  · intro s hs hw
    have hcount : countChar '<' (pyStrip (lrcWordLine s.words)) = s.words.length := by
      rw [countChar_pyStrip (by decide), countChar_lrcWordLine (h s hs)]
    refine ⟨?_, hcount⟩
    simp only [lrcSegmentBlock]
    rw [if_pos hw]
    cases hlist : s.words with
    | nil => exact absurd hlist hw
    | cons w rest =>
      rw [if_pos (lrcWordLine_ne_empty w rest)]
  · intro t
    exact zfill_length 2 (intRepr (Int.floor (t / 60)))

/-- C7 (witness): the theorem evaluated on the demo set; the one-word
demo segment's word line carries exactly one tag. -/
theorem C7_witness :
    generate_lrc demoSet "Demo" =
      "[ti:" ++ "Demo" ++ "]\n" ++ "[ar:Generated by Karaoke Subtitles]\n" ++
        "[al:Karaoke]\n" ++ "[by:Whisper AI]\n\n" ++
        strConcat (demoSet.map lrcSegmentBlock) ∧
    countChar '<' (pyStrip (lrcWordLine demoSegC.words)) = demoSegC.words.length :=
  ⟨(C7_theorem demoSet "Demo" (by decide)).1,
   ((C7_theorem demoSet "Demo" (by decide)).2.2.1 demoSegC (by decide) (by decide)).2⟩

end Karaoke
